import Mathlib

/-!
Shallow embedding of the YunoHost app lifecycle manager
(`src/library/yunohost_app/app.py`) and proofs about its
instance-identity parsing, conflict resolution, version classification,
install/upgrade state machines and app-setting store.

Strings from the Python source are modelled as `List Char`; dictionaries
as association lists; the external collaborators (script runner,
permission directory, health check) as explicit oracle parameters.
-/

namespace YnhApp

/-! ## Conflict Resolver (`_get_conflicting_apps`, app.py:2320-2355) -/

/-- One entry of `app_map(raw=True)[domain]`: a registered path `p`
mapping to `{"id": ..., "label": ...}`. -/
structure MapEntry where
  path : List Char
  id : List Char
  label : List Char
deriving DecidableEq, Repr

/-- The conflict condition of the loop body (app.py:2348-2353):
`path == p or path.startswith(p) or p.startswith(path)`
(Python `s.startswith(t)` is: `t` is a string prefix of `s`). -/
def conflictCond (path p : List Char) : Bool :=
  decide (path = p) || p.isPrefixOf path || path.isPrefixOf p

/-- `_get_conflicting_apps` (app.py:2320-2355), after domain/path
normalization, restricted to the entries of the candidate's domain
(`apps_map[domain].items()`).  Entries whose id equals `ignore_app` are
skipped; every other entry satisfying the conflict condition is
collected as `(p, id, label)`. -/
def getConflictingApps (path : List Char) (entries : List MapEntry)
    (ignore_app : Option (List Char)) : List (List Char × List Char × List Char) :=
  (entries.filter
      (fun e => decide (some e.id ≠ ignore_app) && conflictCond path e.path)).map
    (fun e => (e.path, e.id, e.label))

/-! ## Instance Identity (`re_app_instance_name`, app.py:77-79, and
`_parse_app_instance_name`, app.py:2407-2432) -/

/-- A character matched by `[\w-]` (ASCII reading of Python `\w`). -/
def isIdChar (c : Char) : Bool :=
  c.isAlpha || c.isDigit || c = '_' || c = '-'

/-- A digit character `[0-9]`. -/
def isDigitChar (c : Char) : Bool :=
  '0' ≤ c && c ≤ '9'

/-- The instance-number group `[1-9][0-9]*`: nonempty, no leading zero. -/
def validNb : List Char → Bool
  | [] => false
  | d :: rest => ('1' ≤ d && d ≤ '9') && rest.all isDigitChar

/-- Decimal value of a digit string (the `int(...)` of app.py:2430). -/
def digitsToNat (ds : List Char) : Nat :=
  ds.foldl (fun n d => 10 * n + (d.toNat - 48)) 0

/-- Backtracking search of `^(?P<appid>[\w-]+?)(__(?P<appinstancenb>[1-9][0-9]*))?$`
for the non-greedy split: the shortest nonempty prefix followed by a
whole-tail `__N` suffix with `N` in `[1-9][0-9]*`.  `acc` holds the
reversed candidate prefix consumed so far. -/
def splitScan (acc : List Char) : List Char → Option (List Char × Nat)
  | [] => none
  | c :: cs =>
    if c = '_' && headIsUnderscoreNb cs && !acc.isEmpty then
      some (acc.reverse, digitsToNat cs.tail)
    else
      splitScan (c :: acc) cs
where
  /-- Does `cs` read `'_' :: N` with `N` a valid instance number? -/
  headIsUnderscoreNb : List Char → Bool
    | c2 :: cs2 => c2 = '_' && validNb cs2
    | [] => false

/-- `_parse_app_instance_name` (app.py:2407-2432): match the instance-name
regex; on the split alternative the appid part must consist of `[\w-]`
characters, otherwise the whole string must.  Returns
`(appid, instance number)`, the number defaulting to 1; `none` models the
`assert match` failure on a malformed id. -/
def parseAppInstanceName (s : List Char) : Option (List Char × Nat) :=
  match splitScan [] s with
  | some (a, n) => if a.all isIdChar then some (a, n) else none
  | none => if !s.isEmpty && s.all isIdChar then some (s, 1) else none

/-- Decimal digit character of `d < 10`. -/
def digitChar : Nat → Char
  | 0 => '0' | 1 => '1' | 2 => '2' | 3 => '3' | 4 => '4'
  | 5 => '5' | 6 => '6' | 7 => '7' | 8 => '8' | _ => '9'

/-- Digits of `n` prepended to `acc`; `fuel` bounds the recursion depth
(any `fuel ≥ n` computes all digits). -/
def natDigitsGo : Nat → Nat → List Char → List Char
  | 0, _, acc => acc
  | fuel + 1, n, acc =>
    if n = 0 then acc else natDigitsGo fuel (n / 10) (digitChar (n % 10) :: acc)

/-- Decimal representation of `n` (Python `str(instance_number)`). -/
def natDigits (n : Nat) : List Char :=
  if n = 0 then ['0'] else natDigitsGo n n []

/-- Instance-name generation as done by `app_install` (app.py:782-790):
`app_id + "__" + str(instance_number)` when the number exceeds 1,
otherwise the bare app id. -/
def generateInstanceName (base : List Char) (n : Nat) : List Char :=
  if n ≤ 1 then base else base ++ '_' :: '_' :: natDigits n

/-- Does the list contain two consecutive underscores? -/
def hasDoubleUnderscore : List Char → Bool
  | c :: c2 :: rest => (c = '_' && c2 = '_') || hasDoubleUnderscore (c2 :: rest)
  | _ => false

/-! ### Lemmas on decimal digits -/

theorem digitChar_isDigit (m : Nat) : isDigitChar (digitChar m) = true := by
  unfold digitChar
  split <;> decide

theorem digitChar_nonzero (m : Nat) (h1 : 1 ≤ m) (h9 : m ≤ 9) :
    ('1' ≤ digitChar m && digitChar m ≤ '9') = true := by
  interval_cases m <;> decide

theorem digitChar_val (m : Nat) (h : m ≤ 9) : (digitChar m).toNat - 48 = m := by
  interval_cases m <;> decide

/-- Value of a digit string continued after an already accumulated value. -/
def valFrom (init : Nat) (ds : List Char) : Nat :=
  ds.foldl (fun n d => 10 * n + (d.toNat - 48)) init

theorem digitsToNat_eq_valFrom (ds : List Char) : digitsToNat ds = valFrom 0 ds := rfl

theorem valFrom_cons (init : Nat) (d : Char) (ds : List Char) :
    valFrom init (d :: ds) = valFrom (10 * init + (d.toNat - 48)) ds := rfl

theorem natDigitsGo_zero (fuel : Nat) (acc : List Char) :
    natDigitsGo fuel 0 acc = acc := by
  cases fuel <;> simp [natDigitsGo]

theorem natDigitsGo_val (fuel : Nat) :
    ∀ n acc, n ≤ fuel → valFrom 0 (natDigitsGo fuel n acc) = valFrom n acc := by
  induction fuel with
  | zero =>
    intro n acc hn
    interval_cases n
    simp [natDigitsGo]
  | succ fuel ih =>
    intro n acc hn
    by_cases h0 : n = 0
    · subst h0; simp [natDigitsGo]
    · have hrec : natDigitsGo (fuel + 1) n acc
          = natDigitsGo fuel (n / 10) (digitChar (n % 10) :: acc) := by
        simp [natDigitsGo, h0]
      rw [hrec, ih (n / 10) _ (by omega)]
      rw [valFrom_cons, digitChar_val (n % 10) (by omega)]
      congr 1
      omega

theorem natDigitsGo_shape (fuel : Nat) :
    ∀ n acc, 1 ≤ n → n ≤ fuel →
      ∃ c cs, natDigitsGo fuel n acc = c :: (cs ++ acc) ∧
        ('1' ≤ c && c ≤ '9') = true ∧ cs.all isDigitChar = true := by
  induction fuel with
  | zero => intro n acc h1 h2; omega
  | succ fuel ih =>
    intro n acc h1 _
    have hrec : natDigitsGo (fuel + 1) n acc
        = natDigitsGo fuel (n / 10) (digitChar (n % 10) :: acc) := by
      simp [natDigitsGo, show n ≠ 0 by omega]
    by_cases hsmall : n < 10
    · have hdiv : n / 10 = 0 := by omega
      refine ⟨digitChar (n % 10), [], ?_, ?_, rfl⟩
      · rw [hrec, hdiv, natDigitsGo_zero]
        simp
      · have hmod : n % 10 = n := by omega
        rw [hmod]
        exact digitChar_nonzero n h1 (by omega)
    · have hdiv1 : 1 ≤ n / 10 := by omega
      have hdivf : n / 10 ≤ fuel := by omega
      obtain ⟨c, cs, heq, hc, hcs⟩ := ih (n / 10) (digitChar (n % 10) :: acc) hdiv1 hdivf
      refine ⟨c, cs ++ [digitChar (n % 10)], ?_, hc, ?_⟩
      · rw [hrec, heq]; simp
      · simp only [List.all_append, hcs, Bool.true_and, List.all_cons, List.all_nil,
          Bool.and_true]
        exact digitChar_isDigit (n % 10)

/-- For `n ≥ 1`, `str(n)` is a valid instance-number string. -/
theorem validNb_natDigits (n : Nat) (h : 1 ≤ n) : validNb (natDigits n) = true := by
  unfold natDigits
  rw [if_neg (by omega)]
  obtain ⟨c, cs, heq, hc, hcs⟩ := natDigitsGo_shape n n [] h (le_refl n)
  rw [heq]
  simp only [validNb, List.append_nil, hc, hcs, Bool.and_self]

/-- For `n ≥ 1`, parsing `str(n)` back gives `n`. -/
theorem digitsToNat_natDigits (n : Nat) (h : 1 ≤ n) : digitsToNat (natDigits n) = n := by
  unfold natDigits
  rw [if_neg (by omega), digitsToNat_eq_valFrom, natDigitsGo_val n n [] (le_refl n)]
  rfl

/-! ### Lemmas on the instance-name split -/

theorem splitScan_none :
    ∀ rest acc : List Char, hasDoubleUnderscore rest = false →
      splitScan acc rest = none := by
  intro rest
  induction rest with
  | nil => intro acc _; rfl
  | cons c cs ih =>
    intro acc h
    cases cs with
    | nil => simp [splitScan, splitScan.headIsUnderscoreNb]
    | cons c2 cs2 =>
      simp only [hasDoubleUnderscore, Bool.or_eq_false_iff, Bool.and_eq_false_iff] at h
      rw [splitScan]
      have hcond : (decide (c = '_') && splitScan.headIsUnderscoreNb (c2 :: cs2)
          && !acc.isEmpty) = false := by
        rcases h.1 with hc | hc2
        · simp [hc]
        · simp [splitScan.headIsUnderscoreNb, hc2]
      rw [hcond]
      simp only [Bool.false_eq_true, if_false]
      exact ih (c :: acc) h.2

theorem splitScan_boundary :
    ∀ base acc ds : List Char, hasDoubleUnderscore base = false →
      validNb ds = true → (acc = [] → base ≠ []) →
      splitScan acc (base ++ '_' :: '_' :: ds)
        = some (acc.reverse ++ base, digitsToNat ds) := by
  intro base
  induction base with
  | nil =>
    intro acc ds _ hds hacc
    have hne : acc.isEmpty = false := by
      cases acc with
      | nil => exact absurd rfl (fun h => (hacc h) rfl)
      | cons a as => rfl
    simp [splitScan, splitScan.headIsUnderscoreNb, hds, hne]
  | cons c bs ih =>
    intro acc ds hdd hds _
    have hddbs : hasDoubleUnderscore bs = false := by
      cases bs with
      | nil => rfl
      | cons b bs' =>
        simp only [hasDoubleUnderscore, Bool.or_eq_false_iff] at hdd
        exact hdd.2
    rw [List.cons_append, splitScan]
    have hcond : (decide (c = '_')
        && splitScan.headIsUnderscoreNb (bs ++ '_' :: '_' :: ds)
        && !acc.isEmpty) = false := by
      by_cases hc : c = '_'
      · cases bs with
        | nil =>
          have : validNb ('_' :: ds) = false := by simp [validNb]
          simp [splitScan.headIsUnderscoreNb, this]
        | cons b bs' =>
          have hb : ¬(b = '_') := by
            intro hb
            simp only [hasDoubleUnderscore, Bool.or_eq_false_iff,
              Bool.and_eq_false_iff] at hdd
            rcases hdd.1 with h1 | h1
            · exact absurd hc (by simpa using h1)
            · exact absurd hb (by simpa using h1)
          simp [splitScan.headIsUnderscoreNb, hb]
      · simp [hc]
    rw [hcond]
    simp only [Bool.false_eq_true, if_false]
    rw [ih (c :: acc) ds hddbs hds (by intro h; cases h)]
    simp

/-- The regex fallback: a string of `[\w-]` characters with no `__N`
tail parses to itself with instance number 1. -/
theorem parse_no_suffix (s : List Char) (hne : s ≠ [])
    (hchars : s.all isIdChar = true) (hdd : hasDoubleUnderscore s = false) :
    parseAppInstanceName s = some (s, 1) := by
  unfold parseAppInstanceName
  rw [splitScan_none s [] hdd]
  have : s.isEmpty = false := by cases s with | nil => exact absurd rfl hne | cons a as => rfl
  simp [this, hchars]

/-- Parsing a well-formed `base ++ "__" ++ digits` strips the suffix. -/
theorem parse_suffix (base ds : List Char) (hne : base ≠ [])
    (hchars : base.all isIdChar = true) (hdd : hasDoubleUnderscore base = false)
    (hds : validNb ds = true) :
    parseAppInstanceName (base ++ '_' :: '_' :: ds) = some (base, digitsToNat ds) := by
  unfold parseAppInstanceName
  rw [splitScan_boundary base [] ds hdd hds (fun _ => hne)]
  simp [hchars]

/-! ## Claim theorems: C7 and C3 -/

/-- C7: instance id parsing round-trips generation: for every well-formed
base id (nonempty, `[\w-]` characters, no `__` substring) and every
`n ≥ 1`, parsing the generated instance name yields `(base, n)`; a `__N`
suffix is stripped only for a positive integer without leading zeros, so
`parse "foo__0" = ("foo__0", 1)`, `parse "foo__23qdqsd" = ("foo__23qdqsd", 1)`
and `parse "foo__23" = ("foo", 23)`. -/
theorem C7_instance_id_round_trip (base : List Char) (n : Nat)
    (hne : base ≠ []) (hchars : base.all isIdChar = true)
    (hdd : hasDoubleUnderscore base = false) (hn : 1 ≤ n) :
    parseAppInstanceName (generateInstanceName base n) = some (base, n) ∧
    parseAppInstanceName "foo__0".data = some ("foo__0".data, 1) ∧
    parseAppInstanceName "foo__23qdqsd".data = some ("foo__23qdqsd".data, 1) ∧
    parseAppInstanceName "foo__23".data = some ("foo".data, 23) := by
  refine ⟨?_, by decide, by decide, by decide⟩
  by_cases h1 : n ≤ 1
  · have hn1 : n = 1 := by omega
    subst hn1
    unfold generateInstanceName
    rw [if_pos (le_refl 1)]
    exact parse_no_suffix base hne hchars hdd
  · unfold generateInstanceName
    rw [if_neg h1,
      parse_suffix base (natDigits n) hne hchars hdd (validNb_natDigits n (by omega)),
      digitsToNat_natDigits n (by omega)]

theorem C7_instance_id_round_trip_witness :
    parseAppInstanceName (generateInstanceName "foo".data 5) = some ("foo".data, 5) :=
  (C7_instance_id_round_trip "foo".data 5 (by decide) (by decide) (by decide)
    (by decide)).1

/-- C3 counterexample: the claim says a candidate `/blog2` does NOT
conflict with an existing `/blog`, but `_get_conflicting_apps` uses plain
string-prefix tests (`path.startswith(p) or p.startswith(path)`,
app.py:2352), and `"/blog"` is a string prefix of `"/blog2"`, so the code
reports a conflict. -/
theorem C3_counterexample_blog2 :
    getConflictingApps "/blog2".data [⟨"/blog".data, "x".data, "l".data⟩] none
      = [("/blog".data, "x".data, "l".data)] := by decide

/-- C3 (amended): a candidate path conflicts with a registered entry
(excluding the ignored instance) iff the paths are equal or one is a
string prefix of the other; in particular `/blog` and `/blog/sub`
conflict in both directions, and `/blog2` DOES conflict with `/blog`
(string-prefix, not path-segment, containment). -/
theorem C3_conflict_iff (path : List Char) (entries : List MapEntry)
    (ignore_app : Option (List Char)) (p i l : List Char) :
    (p, i, l) ∈ getConflictingApps path entries ignore_app ↔
      (⟨p, i, l⟩ : MapEntry) ∈ entries ∧ some i ≠ ignore_app ∧
        (path = p ∨ p <+: path ∨ path <+: p) := by
  unfold getConflictingApps
  rw [List.mem_map]
  constructor
  · rintro ⟨e, he, heq⟩
    rw [List.mem_filter] at he
    obtain ⟨hmem, hcond⟩ := he
    obtain ⟨ep, ei, el⟩ := e
    simp only [Prod.mk.injEq] at heq
    obtain ⟨h1, h2, h3⟩ := heq
    subst h1; subst h2; subst h3
    simp only [conflictCond, Bool.and_eq_true, Bool.or_eq_true, decide_eq_true_eq,
      List.isPrefixOf_iff_prefix] at hcond
    exact ⟨hmem, hcond.1, by tauto⟩
  · rintro ⟨hmem, hig, hdisj⟩
    refine ⟨⟨p, i, l⟩, List.mem_filter.mpr ⟨hmem, ?_⟩, rfl⟩
    simp only [conflictCond, Bool.and_eq_true, Bool.or_eq_true, decide_eq_true_eq,
      List.isPrefixOf_iff_prefix]
    exact ⟨hig, by tauto⟩

theorem C3_conflict_iff_witness :
    ("/blog/sub".data, "x".data, "l".data) ∈
      getConflictingApps "/blog".data [⟨"/blog/sub".data, "x".data, "l".data⟩] none :=
  (C3_conflict_iff "/blog".data [⟨"/blog/sub".data, "x".data, "l".data⟩] none
    "/blog/sub".data "x".data "l".data).mpr
    ⟨by decide, by decide, Or.inr (Or.inr (by decide))⟩

/-! ## Instance Identity: `_next_instance_number_for_app` (app.py:2435-2450) -/

/-- The `while True` loop of `_next_instance_number_for_app`
(app.py:2445-2450): the first `i ≥ start` not in `ids`.  `fuel` bounds
the iterations; any `fuel > ids.length` reproduces the unbounded loop. -/
def firstFreeFrom : Nat → Nat → List Nat → Nat
  | 0, i, _ => i
  | fuel + 1, i, ids => if i ∈ ids then firstFreeFrom fuel (i + 1) ids else i

/-- The loop started at `i = 1` with sufficient fuel. -/
def nextFromIds (ids : List Nat) : Nat := firstFreeFrom (ids.length + 1) 1 ids

/-- `[_parse_app_instance_name(a)[1] for a in sibling_app_ids]`
(app.py:2442); `none` models the `assert`/exception on a malformed id. -/
def collectNumbers : List (List Char) → Option (List Nat)
  | [] => some []
  | a :: rest =>
    match parseAppInstanceName a, collectNumbers rest with
    | some p, some ns => some (p.2 :: ns)
    | _, _ => none

/-- `sibling_app_ids` (app.py:2439): installed ids equal to `app` or
starting with `app + "__"`. -/
def siblingAppIds (installed : List (List Char)) (app : List Char) : List (List Char) :=
  installed.filter (fun a => decide (a = app) || (app ++ ['_', '_']).isPrefixOf a)

/-- `_next_instance_number_for_app` (app.py:2435-2450). -/
def nextInstanceNumberForApp (installed : List (List Char)) (app : List Char) :
    Option Nat :=
  (collectNumbers (siblingAppIds installed app)).map nextFromIds

/-- Modelled from the spec words of the claim: the instance numbers of the
sibling instances of `app`, i.e. of every installed id that *parses* to
`(app, k)`.  Used only to compare the code's behaviour with the claim. -/
def claimedSiblingNumbers (installed : List (List Char)) (app : List Char) : List Nat :=
  installed.filterMap (fun a =>
    match parseAppInstanceName a with
    | some (b, k) => if b = app then some k else none
    | none => none)

/-- Modelled from the spec words of the claim: the smallest positive
integer not already used as the instance number of any sibling instance
of `app`. -/
def claimedNextInstanceNumber (installed : List (List Char)) (app : List Char) : Nat :=
  nextFromIds (claimedSiblingNumbers installed app)

theorem firstFreeFrom_spec : ∀ (fuel i : Nat) (ids : List Nat),
    (∃ j, i ≤ j ∧ j < i + fuel ∧ j ∉ ids) →
    firstFreeFrom fuel i ids ∉ ids ∧ i ≤ firstFreeFrom fuel i ids ∧
      ∀ k, i ≤ k → k < firstFreeFrom fuel i ids → k ∈ ids := by
  intro fuel
  induction fuel with
  | zero =>
    rintro i ids ⟨j, hj1, hj2, _⟩
    omega
  | succ fuel ih =>
    rintro i ids ⟨j, hj1, hj2, hj3⟩
    by_cases hmem : i ∈ ids
    · have hji : j ≠ i := fun h => hj3 (h ▸ hmem)
      obtain ⟨h1, h2, h3⟩ := ih (i + 1) ids ⟨j, by omega, by omega, hj3⟩
      rw [firstFreeFrom, if_pos hmem]
      refine ⟨h1, by omega, ?_⟩
      intro k hk1 hk2
      rcases Nat.eq_or_lt_of_le hk1 with hk | hk
      · exact hk ▸ hmem
      · exact h3 k (by omega) hk2
    · rw [firstFreeFrom, if_neg hmem]
      exact ⟨hmem, le_refl i, fun k hk1 hk2 => absurd hk2 (by omega)⟩

/-- Pigeonhole: among `1 .. ids.length + 1` some number is free, so the
loop's fuel is sufficient. -/
theorem exists_free_nat (ids : List Nat) :
    ∃ j, 1 ≤ j ∧ j < 1 + (ids.length + 1) ∧ j ∉ ids := by
  by_contra hall
  push_neg at hall
  have hsub : Finset.Icc 1 (ids.length + 1) ⊆ ids.toFinset := by
    intro j hj
    rw [Finset.mem_Icc] at hj
    rw [List.mem_toFinset]
    exact hall j hj.1 (by omega)
  have h1 : (Finset.Icc 1 (ids.length + 1)).card = ids.length + 1 := by
    rw [Nat.card_Icc]
    omega
  have h2 := Finset.card_le_card hsub
  have h3 := ids.toFinset_card_le
  omega

theorem collectNumbers_mem : ∀ (l : List (List Char)) (ns : List Nat),
    collectNumbers l = some ns →
    ∀ a ∈ l, ∀ b k, parseAppInstanceName a = some (b, k) → k ∈ ns := by
  intro l
  induction l with
  | nil => intro ns _ a ha; cases ha
  | cons x xs ih =>
    intro ns hns a ha b k hparse
    rw [collectNumbers] at hns
    cases hpx : parseAppInstanceName x with
    | none => rw [hpx] at hns; cases hns
    | some p =>
      cases hcx : collectNumbers xs with
      | none => rw [hpx, hcx] at hns; cases hns
      | some ms =>
        rw [hpx, hcx] at hns
        injection hns with hns
        rcases List.mem_cons.mp ha with hax | hax
        · subst hax
          rw [hparse] at hpx
          injection hpx with hpx
          rw [← hns, ← hpx]
          exact List.mem_cons_self _ _
        · rw [← hns]
          exact List.mem_cons_of_mem _ (ih ms hcx a hax b k hparse)

theorem splitScan_sound : ∀ (rest acc res : List Char) (n : Nat),
    splitScan acc rest = some (res, n) →
    ∃ mid ds, rest = mid ++ '_' :: '_' :: ds ∧ res = acc.reverse ++ mid ∧
      validNb ds = true ∧ n = digitsToNat ds := by
  intro rest
  induction rest with
  | nil => intro acc res n h; cases h
  | cons c cs ih =>
    intro acc res n h
    rw [splitScan] at h
    by_cases hcond :
        (decide (c = '_') && splitScan.headIsUnderscoreNb cs && !acc.isEmpty) = true
    · rw [if_pos hcond] at h
      have hres : acc.reverse = res := congrArg Prod.fst (Option.some.inj h)
      have hn : digitsToNat cs.tail = n := congrArg Prod.snd (Option.some.inj h)
      simp only [Bool.and_eq_true, decide_eq_true_eq] at hcond
      obtain ⟨⟨hc, hhead⟩, _⟩ := hcond
      cases cs with
      | nil => cases hhead
      | cons c2 cs2 =>
        simp only [splitScan.headIsUnderscoreNb, Bool.and_eq_true,
          decide_eq_true_eq] at hhead
        refine ⟨[], cs2, ?_, ?_, hhead.2, ?_⟩
        · rw [List.nil_append, hc, hhead.1]
        · rw [← hres, List.append_nil]
        · exact hn.symm
    · rw [if_neg hcond] at h
      obtain ⟨mid, ds, h1, h2, h3, h4⟩ := ih (c :: acc) res n h
      refine ⟨c :: mid, ds, ?_, ?_, h3, h4⟩
      · rw [List.cons_append, h1]
      · rw [h2, List.reverse_cons, List.append_assoc, List.singleton_append]

/-- Soundness of `_parse_app_instance_name`: a successful parse means the
input was the bare appid (number 1) or the appid followed by `__N`. -/
theorem parse_cases (a b : List Char) (k : Nat)
    (h : parseAppInstanceName a = some (b, k)) :
    (a = b ∧ k = 1) ∨
      ∃ ds, a = b ++ '_' :: '_' :: ds ∧ validNb ds = true ∧ k = digitsToNat ds := by
  cases hs : splitScan [] a with
  | some p =>
    obtain ⟨p1, p2⟩ := p
    have h2 : (if p1.all isIdChar then some (p1, p2) else none) = some (b, k) := by
      unfold parseAppInstanceName at h
      rw [hs] at h
      exact h
    by_cases hid : p1.all isIdChar = true
    · rw [if_pos hid] at h2
      have hb : p1 = b := congrArg Prod.fst (Option.some.inj h2)
      have hk : p2 = k := congrArg Prod.snd (Option.some.inj h2)
      obtain ⟨mid, ds, hm1, hm2, hm3, hm4⟩ := splitScan_sound a [] p1 p2 hs
      refine Or.inr ⟨ds, ?_, hm3, ?_⟩
      · rw [hm1, ← hb, hm2, List.reverse_nil, List.nil_append]
      · rw [← hk, hm4]
    · rw [if_neg hid] at h2; cases h2
  | none =>
    have h2 : (if !a.isEmpty && a.all isIdChar then some (a, 1) else none)
        = some (b, k) := by
      unfold parseAppInstanceName at h
      rw [hs] at h
      exact h
    by_cases hok : (!a.isEmpty && a.all isIdChar) = true
    · rw [if_pos hok] at h2
      have hb : a = b := congrArg Prod.fst (Option.some.inj h2)
      have hk : (1 : Nat) = k := congrArg Prod.snd (Option.some.inj h2)
      exact Or.inl ⟨hb, hk.symm⟩
    · rw [if_neg hok] at h2; cases h2

/-- C8 counterexample: the app id `a_` is well-formed (it has no `__`
substring), and its second instance is named `a___2`, which passes the
`startswith("a__")` sibling filter for base `a` although it parses to
`("a_", 2)`.  With installed `{a, a___2}` the code returns 3 for base
`a`, while the smallest positive integer not used by a sibling instance
of `a` (only `a` itself, number 1) is 2. -/
theorem C8_counterexample :
    nextInstanceNumberForApp ["a".data, "a___2".data] "a".data = some 3 ∧
      claimedNextInstanceNumber ["a".data, "a___2".data] "a".data = 2 := by decide

/-- C8 (amended): the returned number is the smallest positive integer
not among the parsed instance numbers of the installed ids passing the
code's sibling filter (equal to the base, or having `base + "__"` as a
string prefix).  In particular it is never an instance number already
used by an actual sibling instance of the base; but an id of a
*different* base that passes the prefix filter (possible only when that
other base ends in an underscore) also blocks its number. -/
theorem C8_next_smallest (installed : List (List Char)) (app : List Char)
    (ids : List Nat) (r : Nat)
    (hids : collectNumbers (siblingAppIds installed app) = some ids)
    (hr : nextInstanceNumberForApp installed app = some r) :
    1 ≤ r ∧ r ∉ ids ∧ (∀ k, 1 ≤ k → k < r → k ∈ ids) ∧
      ∀ a ∈ installed, ∀ k, parseAppInstanceName a = some (app, k) → k ≠ r := by
  unfold nextInstanceNumberForApp at hr
  rw [hids, Option.map_some'] at hr
  injection hr with hr
  obtain ⟨j, hj⟩ := exists_free_nat ids
  obtain ⟨h1, h2, h3⟩ := firstFreeFrom_spec (ids.length + 1) 1 ids ⟨j, hj⟩
  have hrr : r = nextFromIds ids := hr.symm
  unfold nextFromIds at hrr
  subst hrr
  refine ⟨h2, h1, h3, ?_⟩
  intro a ha k hparse hkr
  have hfilter : a ∈ siblingAppIds installed app := by
    apply List.mem_filter.mpr
    refine ⟨ha, ?_⟩
    rcases parse_cases a app k hparse with ⟨hab, _⟩ | ⟨ds, hds, _, _⟩
    · simp [hab]
    · have : (app ++ ['_', '_']).isPrefixOf a = true := by
        rw [List.isPrefixOf_iff_prefix, hds]
        exact ⟨ds, by simp⟩
      simp [this]
  have hk : k ∈ ids :=
    collectNumbers_mem (siblingAppIds installed app) ids hids a hfilter app k hparse
  rw [hkr] at hk
  exact h1 hk

theorem C8_next_smallest_witness :
    1 ≤ 3 ∧ 3 ∉ [1, 2, 4] ∧ (∀ k, 1 ≤ k → k < 3 → k ∈ [1, 2, 4]) ∧
      ∀ a ∈ ["foo".data, "foo__2".data, "foo__4".data], ∀ k,
        parseAppInstanceName a = some ("foo".data, k) → k ≠ 3 :=
  C8_next_smallest ["foo".data, "foo__2".data, "foo__4".data] "foo".data
    [1, 2, 4] 3 (by decide) (by decide)

/-! ## Version Classifier (`app_upgrade`, app.py:520-555) -/

/-- Split a version string at the first occurrence of the `~ynh` marker
(Python `"~ynh" in v` / `v.split("~ynh")`). -/
def splitYnh : List Char → Option (List Char × List Char)
  | [] => none
  | c :: cs =>
    if ['~', 'y', 'n', 'h'].isPrefixOf (c :: cs) then
      some ([], (c :: cs).drop 4)
    else
      match splitYnh cs with
      | some (a, b) => some (c :: a, b)
      | none => none

/-- Split a string on `.` separators. -/
def splitDot : List Char → List (List Char)
  | [] => [[]]
  | c :: cs =>
    let rest := splitDot cs
    if c = '.' then [] :: rest
    else
      match rest with
      | r :: rs => (c :: r) :: rs
      | [] => [[c]]

/-- Modelled from the spec: the external `packaging.version` comparison,
restricted to dotted numeric versions — each version is read as its list
of dot-separated numeric components (spec §4.3: "compared as
dotted/alnum version tuples"). -/
def parseDotted (s : List Char) : List Nat :=
  (splitDot s).map digitsToNat

/-- Lexicographic comparison of numeric component lists. -/
def cmpNatList : List Nat → List Nat → Ordering
  | [], [] => .eq
  | [], _ :: _ => .lt
  | _ :: _, [] => .gt
  | a :: as, b :: bs =>
    if a < b then .lt else if b < a then .gt else cmpNatList as bs

/-- Modelled from the spec: ordering of two full `upstream~ynhN`
versions — upstream tuples first, then the packaging revision. -/
def cmpVersionKey (c n : (List Nat) × Nat) : Ordering :=
  match cmpNatList c.1 n.1 with
  | .eq => compare c.2 n.2
  | o => o

/-- The `upgrade_type` values of app.py:521-555. -/
inductive UpgradeType
  | UNKNOWN | DOWNGRADE_FORCED | UPGRADE_FORCED
  | UPGRADE_PACKAGE | UPGRADE_APP | UPGRADE_FULL
deriving DecidableEq, Repr

/-- Per-app decision of the version block: skip the app entirely
(`app_already_up_to_date`: record the update time and move on without
running any script, app.py:526-538), or run the upgrade script with the
given classification. -/
inductive UpgradeDecision
  | skipUpToDate
  | runScript (t : UpgradeType)
deriving DecidableEq, Repr

/-- The version-classification block of `app_upgrade` (app.py:520-555):
only when both versions carry `~ynh` is any classification done
(otherwise `UNKNOWN` and the script runs); `current >= new` without
`force` skips the app; `current > new` gives `DOWNGRADE_FORCED`;
equality gives `UPGRADE_FORCED`; otherwise the split parts are compared
as strings (`str.split("~ynh")`, app.py:544-555). -/
def decideUpgradeType (cur new : List Char) (force : Bool) : UpgradeDecision :=
  match splitYnh cur, splitYnh new with
  | some (cu, cp), some (nu, np) =>
    let ck := (parseDotted cu, digitsToNat cp)
    let nk := (parseDotted nu, digitsToNat np)
    let c := cmpVersionKey ck nk
    if (c = .gt || c = .eq) && !force then .skipUpToDate
    else if c = .gt then .runScript .DOWNGRADE_FORCED
    else if c = .eq then .runScript .UPGRADE_FORCED
    else if cu = nu then .runScript .UPGRADE_PACKAGE
    else if cp = np then .runScript .UPGRADE_APP
    else .runScript .UPGRADE_FULL
  | _, _ => .runScript .UNKNOWN

/-- C5 counterexample: with current `2.0~ynh1`, target `1.0~ynh1` and
`force = False`, app.py:526 (`current >= new and not force`) classifies
the app as already up to date and skips it without running any script —
it is NOT classified `DOWNGRADE_FORCED` (that branch, app.py:539-540, is
reachable only with `force = True`). -/
theorem C5_counterexample :
    decideUpgradeType "2.0~ynh1".data "1.0~ynh1".data false = .skipUpToDate ∧
      decideUpgradeType "2.0~ynh1".data "1.0~ynh1".data false
        ≠ .runScript .DOWNGRADE_FORCED := by decide

/-- C5 (amended): a downgrade from `2.0~ynh1` to `1.0~ynh1` is classified
`DOWNGRADE_FORCED` (and the upgrade script run with that classification)
only when `force` is true; with `force` false the app is skipped as
already up to date, its update timestamp recorded and no script run. -/
theorem C5_downgrade_requires_force :
    decideUpgradeType "2.0~ynh1".data "1.0~ynh1".data true
        = .runScript .DOWNGRADE_FORCED ∧
      decideUpgradeType "2.0~ynh1".data "1.0~ynh1".data false = .skipUpToDate := by
  decide

/-! ## Lifecycle Orchestrator: batch upgrade (`app_upgrade`, app.py:451-684) -/

/-- Per-app outcome of one iteration of the upgrade loop, as decided by
the externals (catalog, version comparison, script runner, health
check):
* `urlRequired` — `upgradable == "url_required"`, warn and continue
  (app.py:509-511);
* `notUpgradable` — not upgradable and not forced, continue
  (app.py:514-516);
* `versionSkip` — `current >= new and not force`: record update
  time/revision, continue without a script (app.py:526-538);
* `script failed broke` — the upgrade script ran; `failed` is the script
  failure flag, `broke` the post health-check failure (app.py:586-642). -/
inductive AppOutcome
  | urlRequired
  | notUpgradable
  | versionSkip
  | script (failed : Bool) (broke : Bool)
deriving DecidableEq, Repr

/-- Did this outcome abort the batch (app.py:627: `upgrade_failed or
broke_the_system`)? -/
def outcomeFails : AppOutcome → Bool
  | .script failed broke => failed || broke
  | _ => false

/-- External oracle for a batch upgrade: outcome, `int(time.time())` and
remote revision per app. -/
structure UpgEnv where
  outcome : String → AppOutcome
  now : String → Nat
  rev : String → List Char

/-- The mutable per-instance settings touched by the loop
(`update_time`, `current_revision`; app.py:645-651 and 530-537). -/
structure AppSettingsRec where
  update_time : Option Nat
  current_revision : Option (List Char)
deriving DecidableEq, Repr

/-- `app_setting(app, "update_time", now)` followed by
`app_setting(app, "current_revision", ...)`. -/
def setUpdateTimeRev (env : UpgEnv) (a : String) (st : String → AppSettingsRec) :
    String → AppSettingsRec :=
  fun x =>
    if x = a then
      { update_time := some (env.now a), current_revision := some (env.rev a) }
    else st x

/-- One iteration of the upgrade loop body for app `a`: the updated
settings state and whether the batch must abort.  On a script or
health-check failure nothing is recorded for `a` (no rollback, no
timestamp update) and the error is raised (app.py:627-642); on success
the timestamp and revision are recorded (app.py:645-651). -/
def processOne (env : UpgEnv) (a : String) (st : String → AppSettingsRec) :
    (String → AppSettingsRec) × Bool :=
  match env.outcome a with
  | .urlRequired => (st, false)
  | .notUpgradable => (st, false)
  | .versionSkip => (setUpdateTimeRev env a st, false)
  | .script failed broke =>
    if failed || broke then (st, true) else (setUpdateTimeRev env a st, false)

/-- The `for number, app_instance_name in enumerate(apps)` loop
(app.py:497-680): apps processed strictly in order; the first failing
app aborts the loop, returning the failing app and the never-attempted
remainder (`apps[number+1:]`, app.py:630-642). -/
def runBatch (env : UpgEnv) : List String → (String → AppSettingsRec) →
    (String → AppSettingsRec) × Option (String × List String)
  | [], st => (st, none)
  | a :: rest, st =>
    let r := processOne env a st
    if r.2 then (r.1, some (a, rest)) else runBatch env rest r.1

/-- The duplicate-collapsing of app.py:486: keep the first occurrence of
each app. -/
def dedupKeepFirst : List String → List String :=
  go []
where
  go (seen : List String) : List String → List String
    | [] => []
    | a :: rest => if a ∈ seen then go seen rest else a :: go (a :: seen) rest

/-- `app_upgrade` entry (app.py:480-497): duplicates collapsed keeping
first occurrences, every target must be installed (else
`app_not_installed` raised before anything runs), an empty list raises
`apps_already_up_to_date`; then the loop runs.  `none` models the
pre-loop validation errors. -/
def appUpgrade (env : UpgEnv) (installed : List String) (apps : List String)
    (st : String → AppSettingsRec) :
    Option ((String → AppSettingsRec) × Option (String × List String)) :=
  let apps' := dedupKeepFirst apps
  if apps'.all (fun a => a ∈ installed) then
    if apps'.isEmpty then none else some (runBatch env apps' st)
  else none

theorem dedupKeepFirst_go_eq :
    ∀ (l seen : List String), l.Nodup → (∀ a ∈ l, a ∉ seen) →
      dedupKeepFirst.go seen l = l := by
  intro l
  induction l with
  | nil => intro seen _ _; rfl
  | cons a rest ih =>
    intro seen hnd hsn
    rw [dedupKeepFirst.go, if_neg (hsn a (List.mem_cons_self a rest))]
    congr 1
    refine ih (a :: seen) (List.Nodup.of_cons hnd) ?_
    intro b hb
    rw [List.mem_cons]
    rintro (hba | hbs)
    · exact (List.nodup_cons.mp hnd).1 (hba ▸ hb)
    · exact hsn b (List.mem_cons_of_mem a hb) hbs

theorem dedupKeepFirst_eq (l : List String) (h : l.Nodup) : dedupKeepFirst l = l :=
  dedupKeepFirst_go_eq l [] h (fun _ _ hmem => by cases hmem)

theorem processOne_ok (env : UpgEnv) (a : String) (st : String → AppSettingsRec)
    (h : outcomeFails (env.outcome a) = false) : (processOne env a st).2 = false := by
  unfold processOne
  cases henv : env.outcome a with
  | script failed broke =>
    rw [henv] at h
    simp only [outcomeFails] at h
    simp [h]
  | urlRequired => rfl
  | notUpgradable => rfl
  | versionSkip => rfl

theorem processOne_fail (env : UpgEnv) (a : String) (st : String → AppSettingsRec)
    (h : outcomeFails (env.outcome a) = true) : processOne env a st = (st, true) := by
  unfold processOne
  cases henv : env.outcome a with
  | script failed broke =>
    rw [henv] at h
    simp only [outcomeFails] at h
    simp [h]
  | urlRequired => rw [henv] at h; cases h
  | notUpgradable => rw [henv] at h; cases h
  | versionSkip => rw [henv] at h; cases h

theorem processOne_frame (env : UpgEnv) (a c : String) (st : String → AppSettingsRec)
    (h : c ≠ a) : (processOne env a st).1 c = st c := by
  unfold processOne
  cases env.outcome a with
  | urlRequired => rfl
  | notUpgradable => rfl
  | versionSkip => simp [setUpdateTimeRev, h]
  | script failed broke =>
    by_cases hf : (failed || broke) = true
    · simp [hf]
    · simp only [Bool.not_eq_true] at hf
      simp [hf, setUpdateTimeRev, h]

theorem runBatch_frame (env : UpgEnv) :
    ∀ (l : List String) (st : String → AppSettingsRec) (c : String), c ∉ l →
      (runBatch env l st).1 c = st c := by
  intro l
  induction l with
  | nil => intro st c _; rfl
  | cons a rest ih =>
    intro st c hc
    rw [runBatch]
    have hca : c ≠ a := fun h => hc (h ▸ List.mem_cons_self a rest)
    by_cases hfail : (processOne env a st).2 = true
    · rw [if_pos hfail]
      exact processOne_frame env a c st hca
    · rw [if_neg hfail, ih (processOne env a st).1 c
        (fun h => hc (List.mem_cons_of_mem a h)), processOne_frame env a c st hca]

theorem runBatch_append_fail (env : UpgEnv) (b : String) (post : List String)
    (hb : outcomeFails (env.outcome b) = true) :
    ∀ (pre : List String) (st : String → AppSettingsRec),
      (∀ a ∈ pre, outcomeFails (env.outcome a) = false) →
      runBatch env (pre ++ b :: post) st = ((runBatch env pre st).1, some (b, post)) := by
  intro pre
  induction pre with
  | nil =>
    intro st _
    simp only [List.nil_append, runBatch]
    rw [processOne_fail env b st hb]
    simp
  | cons a pre' ih =>
    intro st hok
    have ha : outcomeFails (env.outcome a) = false := hok a (List.mem_cons_self a pre')
    have hpo : (processOne env a st).2 = false := processOne_ok env a st ha
    simp only [List.cons_append, runBatch, hpo, Bool.false_eq_true, if_false]
    exact ih (processOne env a st).1 (fun x hx => hok x (List.mem_cons_of_mem a hx))

/-- C2: batch upgrade is fail-fast.  For a duplicate-free list of
installed targets `pre ++ [b] ++ post` where every app in `pre` succeeds
and `b`'s upgrade script (or its post health check) fails: the call
processes exactly `pre` (their settings end up as the sequential
processing of `pre` leaves them), reports the failure at `b` with the
never-attempted remainder `post`, and every app not in `pre` — in
particular `b` and every app of `post` — keeps its settings and
timestamps unchanged. -/
theorem C2_batch_failfast (env : UpgEnv) (st : String → AppSettingsRec)
    (installed pre post : List String) (b : String)
    (hnodup : (pre ++ b :: post).Nodup)
    (hinst : ∀ a ∈ pre ++ b :: post, a ∈ installed)
    (hpre : ∀ a ∈ pre, outcomeFails (env.outcome a) = false)
    (hb : outcomeFails (env.outcome b) = true) :
    appUpgrade env installed (pre ++ b :: post) st
        = some ((runBatch env pre st).1, some (b, post)) ∧
      ∀ c, c ∉ pre → (runBatch env pre st).1 c = st c := by
  constructor
  · unfold appUpgrade
    rw [dedupKeepFirst_eq _ hnodup]
    rw [if_pos (by rw [List.all_eq_true]; intro a ha; exact decide_eq_true (hinst a ha))]
    rw [if_neg (by simp)]
    rw [runBatch_append_fail env b post hb pre st hpre]
  · intro c hc
    exact runBatch_frame env pre st c hc

theorem C2_batch_failfast_witness :
    (appUpgrade
        ⟨fun a => if a = "B" then .script true false else .script false false,
         fun _ => 100, fun _ => "r".data⟩
        ["A", "B", "C"] (["A"] ++ "B" :: ["C"]) (fun _ => ⟨none, none⟩)
      = some ((runBatch
          ⟨fun a => if a = "B" then .script true false else .script false false,
           fun _ => 100, fun _ => "r".data⟩
          ["A"] (fun _ => ⟨none, none⟩)).1, some ("B", ["C"]))) ∧
      ∀ c, c ∉ ["A"] →
        (runBatch
          ⟨fun a => if a = "B" then .script true false else .script false false,
           fun _ => 100, fun _ => "r".data⟩
          ["A"] (fun _ => ⟨none, none⟩)).1 c = (fun _ => (⟨none, none⟩ : AppSettingsRec)) c :=
  C2_batch_failfast
    ⟨fun a => if a = "B" then .script true false else .script false false,
     fun _ => 100, fun _ => "r".data⟩
    (fun _ => ⟨none, none⟩) ["A", "B", "C"] ["A"] ["C"] "B"
    (by decide) (by decide) (by decide) (by decide)

/-! ## Lifecycle Orchestrator: install (`app_install`, app.py:696-992) -/

/-- External oracles of one install run: the install script result
(`hook_exec_with_script_debug_if_failure`, app.py:871-884), the post
health check (`_assert_system_is_sane_for_app(manifest, "post")`), the
rollback remove script's return code (`-1` models a crash/interrupt,
app.py:934-951) and the health check after a successful rollback remove
(app.py:963-968). -/
structure InstallEnv where
  scriptOk : Bool
  healthPostOk : Bool
  removeRetcode : Int
  removeHealthOk : Bool
deriving DecidableEq, Repr

/-- The durable state an install touches: the settings directories under
`/etc/yunohost/apps/` (the AppRecord store), the permission names in the
directory, and the scratch workdirs. -/
structure SysState where
  records : List (List Char)
  permissions : List (List Char)
  workdirs : List (List Char)
deriving DecidableEq, Repr

/-- `_is_installed` (app.py:2194-2206): the settings directory exists. -/
def isInstalled (st : SysState) (app : List Char) : Bool :=
  st.records.contains app

/-- Result of an install run: the final state, whether the call
succeeded, and which post health checks were invoked — after the
install script (app.py:890) and after the rollback remove script
(app.py:964). -/
structure InstallResult where
  state : SysState
  success : Bool
  postCheckAfterScript : Bool
  postCheckAfterRemove : Bool
deriving DecidableEq, Repr

/-- `app_install` from the AppRecord creation onward (app.py:822-992),
for instance `app` staged in scratch folder `workdir` (already present
in the state):
record directory created (app.py:822-834), `.main` permission created
(app.py:849-855), install script run, then in the `finally` block the
post health check runs **only under `if not install_failed`**
(app.py:886-894); on failure (script or health check) either the raise
with no cleanup when `no_remove_on_failure` is set (app.py:911-916), or
the rollback: best-effort remove script, deletion of every permission
starting with `app + "."` (app.py:953-956), a post health check only if
the remove script returned 0 (app.py:958-968), deletion of the record
directory and the workdir (app.py:970-972), and the raise; on success
the workdir is removed and the call succeeds (app.py:978-992). -/
def appInstallFromScript (st : SysState) (app workdir : List Char)
    (env : InstallEnv) (no_remove_on_failure : Bool) : InstallResult :=
  let st1 : SysState :=
    { st with
      records := app :: st.records.filter (fun r => !(r = app : Bool)),
      permissions := (app ++ ".main".data) :: st.permissions }
  let install_failed := !env.scriptOk
  let postAfterScript := env.scriptOk
  let broke_the_system := env.scriptOk && !env.healthPostOk
  if install_failed || broke_the_system then
    if no_remove_on_failure then
      { state := st1, success := false,
        postCheckAfterScript := postAfterScript, postCheckAfterRemove := false }
    else
      let st2 : SysState :=
        { records := st1.records.filter (fun r => !(r = app : Bool)),
          permissions := st1.permissions.filter
            (fun p => !(app ++ ['.']).isPrefixOf p),
          workdirs := st1.workdirs.filter (fun w => !(w = workdir : Bool)) }
      { state := st2, success := false,
        postCheckAfterScript := postAfterScript,
        postCheckAfterRemove := decide (env.removeRetcode = 0) }
  else
    { state := { st1 with
        workdirs := st1.workdirs.filter (fun w => !(w = workdir : Bool)) },
      success := true,
      postCheckAfterScript := postAfterScript, postCheckAfterRemove := false }

/-- C1: install atomicity.  If the install script fails, or it succeeds
but the post health check fails, the call fails; unless the
`--no-remove-on-failure` debug flag was passed, afterwards the instance
is absent — its settings directory is deleted and every permission of
the instance (names starting `app + "."`) is deleted — and with the
flag, both the settings record and the scratch workdir remain. -/
theorem C1_install_atomicity (st : SysState) (app workdir : List Char)
    (env : InstallEnv) (no_remove : Bool)
    (hwd : workdir ∈ st.workdirs)
    (hfail : env.scriptOk = false ∨ (env.scriptOk = true ∧ env.healthPostOk = false)) :
    (appInstallFromScript st app workdir env no_remove).success = false ∧
      (no_remove = false →
        isInstalled (appInstallFromScript st app workdir env no_remove).state app
            = false ∧
          ∀ p ∈ (appInstallFromScript st app workdir env no_remove).state.permissions,
            (app ++ ['.']).isPrefixOf p = false) ∧
      (no_remove = true →
        isInstalled (appInstallFromScript st app workdir env no_remove).state app
            = true ∧
          workdir ∈ (appInstallFromScript st app workdir env no_remove).state.workdirs) := by
  have hcond : (!env.scriptOk || env.scriptOk && !env.healthPostOk) = true := by
    rcases hfail with h | ⟨h1, h2⟩
    · rw [h]; rfl
    · rw [h1, h2]; rfl
  unfold appInstallFromScript
  simp only [hcond, if_true]
  by_cases hnr : no_remove = true
  · rw [if_pos hnr]
    refine ⟨rfl, ?_, ?_⟩
    · intro h; rw [h] at hnr; cases hnr
    · intro _
      constructor
      · simp [isInstalled]
      · exact hwd
  · rw [if_neg hnr]
    refine ⟨rfl, ?_, ?_⟩
    · intro _
      constructor
      · simp [isInstalled]
      · intro p hp
        have := (List.mem_filter.mp hp).2
        simpa using this
    · intro h; exact absurd h hnr

theorem C1_install_atomicity_witness :
    ((appInstallFromScript ⟨[], [], ["wd".data]⟩ "app".data "wd".data
        ⟨false, true, 1, true⟩ false).success = false ∧
      (false = false →
        isInstalled (appInstallFromScript ⟨[], [], ["wd".data]⟩ "app".data "wd".data
            ⟨false, true, 1, true⟩ false).state "app".data = false ∧
          ∀ p ∈ (appInstallFromScript ⟨[], [], ["wd".data]⟩ "app".data "wd".data
              ⟨false, true, 1, true⟩ false).state.permissions,
            ("app".data ++ ['.']).isPrefixOf p = false) ∧
      (false = true →
        isInstalled (appInstallFromScript ⟨[], [], ["wd".data]⟩ "app".data "wd".data
            ⟨false, true, 1, true⟩ false).state "app".data = true ∧
          "wd".data ∈ (appInstallFromScript ⟨[], [], ["wd".data]⟩ "app".data "wd".data
            ⟨false, true, 1, true⟩ false).state.workdirs)) :=
  C1_install_atomicity ⟨[], [], ["wd".data]⟩ "app".data "wd".data
    ⟨false, true, 1, true⟩ false (by decide) (Or.inl rfl)

/-- C4 counterexample: when the install script fails (exit nonzero), the
post-operation health check is NOT run at all: the check of app.py:890
is guarded by `if not install_failed`, and on the rollback path the
check of app.py:964 runs only when the remove script returned 0 (here it
returned 1).  So "always run regardless of script outcome" is false. -/
theorem C4_counterexample :
    (appInstallFromScript ⟨[], [], ["wd".data]⟩ "app".data "wd".data
        ⟨false, true, 1, true⟩ false).postCheckAfterScript = false ∧
      (appInstallFromScript ⟨[], [], ["wd".data]⟩ "app".data "wd".data
        ⟨false, true, 1, true⟩ false).postCheckAfterRemove = false := by decide

/-- C4 (amended): during install the post-script system health check runs
iff the install script succeeded (app.py:886-890 guards it with `if not
install_failed`); on the rollback path a separate post check runs iff
the rollback was taken (failure without the no-remove flag) and the
remove script returned 0. -/
theorem C4_post_check_only_on_success (st : SysState) (app workdir : List Char)
    (env : InstallEnv) (no_remove : Bool) :
    (appInstallFromScript st app workdir env no_remove).postCheckAfterScript
        = env.scriptOk ∧
      (appInstallFromScript st app workdir env no_remove).postCheckAfterRemove
        = ((!env.scriptOk || env.scriptOk && !env.healthPostOk) && !no_remove
            && decide (env.removeRetcode = 0)) := by
  unfold appInstallFromScript
  by_cases hf : (!env.scriptOk || env.scriptOk && !env.healthPostOk) = true
  · simp only [hf, if_true]
    by_cases hnr : no_remove = true
    · simp [hnr]
    · simp only [Bool.not_eq_true] at hnr
      simp [hnr]
  · simp only [Bool.not_eq_true] at hf
    simp [hf]

/-! ## App Record Store and app settings (`app_setting`, app.py:1189-1332;
`_get_app_settings`, app.py:1760-1797; `_set_app_settings`,
app.py:1800-1810) -/

/-- Values stored in a settings dict: a plain string, or the result of
`yaml.safe_load(value)` on a raw string (kept uninterpreted). -/
inductive SVal
  | str (s : List Char)
  | yamlVal (raw : List Char)
deriving DecidableEq, Repr

/-- An insertion-ordered dict like Python's. -/
abbrev Dict := List (List Char × SVal)

def dget : Dict → List Char → Option SVal
  | [], _ => none
  | (k', v) :: rest, k => if k' = k then some v else dget rest k

/-- Python `d[k] = v`: replace in place, else append. -/
def dset : Dict → List Char → SVal → Dict
  | [], k, v => [(k, v)]
  | (k', v') :: rest, k, v =>
    if k' = k then (k, v) :: rest else (k', v') :: dset rest k v

/-- Python `del d[k]`. -/
def ddel (d : Dict) (k : List Char) : Dict :=
  d.filter (fun kv => !decide (kv.1 = k))

def dmem (d : Dict) (k : List Char) : Bool := (dget d k).isSome

/-- What the permission directory stores per permission name (the fields
`app_setting` reads or writes). -/
structure PermInfo where
  url : Option (List Char)
  additional_urls : List (List Char)
  allowed : List (List Char)
deriving DecidableEq, Repr

abbrev Perms := List (List Char × PermInfo)

def pget : Perms → List Char → Option PermInfo
  | [], _ => none
  | (k', v) :: rest, k => if k' = k then some v else pget rest k

def psetInfo : Perms → List Char → PermInfo → Perms
  | [], k, v => [(k, v)]
  | (k', v') :: rest, k, v =>
    if k' = k then (k, v) :: rest else (k', v') :: psetInfo rest k v

def pdel (ps : Perms) (k : List Char) : Perms :=
  ps.filter (fun kv => !decide (kv.1 = k))

/-- `permission_url(name, url=u, ...)` setting the main url (no-op when
the permission is missing, where Python would raise). -/
def permissionUrlSet (ps : Perms) (name u : List Char) : Perms :=
  match pget ps name with
  | some p => psetInfo ps name { p with url := some u }
  | none => ps

/-- `permission_url(name, clear_urls=True)` followed by
`permission_url(name, add_url=urls)` (app.py:1291-1292). -/
def permissionUrlClearThenAdd (ps : Perms) (name : List Char)
    (urls : List (List Char)) : Perms :=
  match pget ps name with
  | some p => psetInfo ps name { p with url := none, additional_urls := urls }
  | none => ps

def visitors : List Char := "visitors".data

/-- `user_permission_update(name, add="visitors")`. -/
def userPermissionAddVisitors (ps : Perms) (name : List Char) : Perms :=
  match pget ps name with
  | some p =>
    psetInfo ps name
      { p with allowed := if visitors ∈ p.allowed then p.allowed
                          else p.allowed ++ [visitors] }
  | none => ps

/-- `user_permission_update(name, remove="visitors")`. -/
def userPermissionRemoveVisitors (ps : Perms) (name : List Char) : Perms :=
  match pget ps name with
  | some p =>
    psetInfo ps name
      { p with allowed := p.allowed.filter (fun a => !decide (a = visitors)) }
  | none => ps

/-- `permission_create(name, ...)` (app.py:1297-1309). -/
def permissionCreate (ps : Perms) (name : List Char) (info : PermInfo) : Perms :=
  psetInfo ps name info

def startsWithSlash : List Char → Bool
  | c :: _ => c = '/'
  | [] => false

def endsWithSlash (l : List Char) : Bool :=
  match l.getLast? with
  | some c => c = '/'
  | none => false

/-- Python `s.strip("/")`. -/
def stripSlashes (s : List Char) : List Char :=
  ((s.dropWhile (fun c => decide (c = '/'))).reverse.dropWhile
    (fun c => decide (c = '/'))).reverse

/-- The trailing/leading-slash test of the legacy path fix
(app.py:1786-1789): `settings.get("path") != "/" and
(settings.get("path","").endswith("/") or not
settings.get("path","/").startswith("/"))`.  A missing key makes both
disjuncts false; a non-string value is outside the modelled domain. -/
def pathNeedsFix : Option SVal → Bool
  | some (.str s) => !decide (s = ['/']) && (endsWithSlash s || !startsWithSlash s)
  | _ => false

/-- The in-place path normalization of `_get_app_settings`
(app.py:1786-1791): `settings["path"] = "/" + settings["path"].strip("/")`. -/
def applyPathFix (d : Dict) : Dict :=
  match dget d "path".data with
  | some (.str s) =>
    if pathNeedsFix (some (.str s)) then
      dset d "path".data (.str ('/' :: stripSlashes s))
    else d
  | _ => d

/-- `_get_app_settings` (app.py:1760-1797) for an installed app whose
settings file holds `file` (`none` = missing file, the caught `IOError`).
Returns the file contents afterwards (the path fix writes the file) and
the settings dict the caller gets (`{}` when the file is missing, the
stored id differs from the app id, or the id key is absent — the caught
`KeyError`). -/
def getAppSettingsD (app : List Char) (d : Dict) : Dict :=
  match dget (applyPathFix d) "id".data with
  | some v => if v = SVal.str app then applyPathFix d else []
  | none => []

def getAppSettings (app : List Char) (file : Option Dict) : Option Dict × Dict :=
  match file with
  | none => (none, [])
  | some d => (some (applyPathFix d), getAppSettingsD app d)

/-- Does reading this settings file trigger the legacy path fix (and its
write-back)? -/
def settingsReadFix (file : Option Dict) : Bool :=
  match file with
  | some d => pathNeedsFix (dget d "path".data)
  | none => false

/-- `is_legacy_permission_setting` (app.py:1207-1209). -/
def isLegacyPermissionSetting (key : List Char) : Bool :=
  "unprotected_".data.isPrefixOf key || "protected_".data.isPrefixOf key
    || "skipped_".data.isPrefixOf key

/-- `"%s.legacy_%s_uris" % (app, key.split("_")[0])` (app.py:1222). -/
def legacyPermName (app key : List Char) : List Char :=
  app ++ ".legacy_".data ++ key.takeWhile (fun c => !decide (c = '_')) ++ "_uris".data

/-- Split a string on `,` separators (Python `urls.split(",")`). -/
def splitComma : List Char → List (List Char)
  | [] => [[]]
  | c :: cs =>
    let rest := splitComma cs
    if c = ',' then [] :: rest
    else
      match rest with
      | r :: rs => (c :: r) :: rs
      | [] => [[c]]

/-- Python `",".join(urls)`. -/
def joinComma (ls : List (List Char)) : List Char :=
  List.intercalate [','] ls

/-- The SET arm of the legacy branch (app.py:1252-1309). -/
def legacySet (ps : Perms) (app key urls : List Char) : Perms :=
  let mainName := app ++ ".main".data
  let permission_name := legacyPermName app key
  if urls = "/".data then
    if "unprotected_".data.isPrefixOf key || "skipped_".data.isPrefixOf key then
      userPermissionAddVisitors (permissionUrlSet ps mainName "/".data) mainName
    else userPermissionRemoveVisitors ps mainName
  else
    let urls1 := splitComma urls
    let urls2 := if "_regex".data.isSuffixOf key
      then urls1.map (fun u => "re:".data ++ u) else urls1
    match pget ps permission_name with
    | some p =>
      let current := if "_regex".data.isSuffixOf key
        then p.additional_urls.filter (fun u => !"re:".data.isPrefixOf u)
        else p.additional_urls.filter (fun u => "re:".data.isPrefixOf u)
      permissionUrlClearThenAdd ps permission_name (urls2 ++ current)
    | none =>
      permissionCreate ps permission_name
        { url := none, additional_urls := urls2,
          allowed := if "protected_".data.isPrefixOf key
            then ["all_users".data] else ["all_users".data, visitors] }

/-- The DELETE arm of the legacy branch (app.py:1233-1250); Python
indexes `permissions[app + ".main"]` and would raise when `.main` is
missing, which the `none => []` default smooths over (no settings write
happens either way). -/
def legacyDelete (ps : Perms) (app key : List Char) (app_settings : Dict) : Perms :=
  let mainName := app ++ ".main".data
  let permission_name := legacyPermName app key
  let mainAllowed := match pget ps mainName with
    | some p => p.allowed
    | none => []
  let ps1 :=
    if dmem app_settings "is_public".data && decide (visitors ∈ mainAllowed)
        && ("unprotected_".data.isPrefixOf key || "skipped_".data.isPrefixOf key) then
      userPermissionRemoveVisitors ps mainName
    else ps
  if (pget ps permission_name).isSome then pdel ps1 permission_name else ps1

/-- `app_setting(app, key, value, delete)` (app.py:1189-1332) acting on
the app's settings file and the permission directory; returns the file
contents afterwards, the permissions afterwards, and the returned value
(GET).  `value = none, delete = false` is GET; `delete = true` is
DELETE; otherwise SET.  The legacy GET joins
`permission.get("uris", []) + permission["additional_urls"]`, where the
`uris` key does not exist in permission dicts, hence the
`additional_urls` alone (app.py:1226-1231). -/
def appSetting (file : Option Dict) (ps : Perms) (app key : List Char)
    (value : Option (List Char)) (delete : Bool) :
    Option Dict × Perms × Option SVal :=
  let fs := getAppSettings app file
  if isLegacyPermissionSetting key then
    if value.isNone && !delete then
      (fs.1, ps, (pget ps (legacyPermName app key)).map
        (fun p => .str (joinComma p.additional_urls)))
    else if delete then
      (fs.1, legacyDelete ps app key fs.2, none)
    else
      (fs.1, legacySet ps app key (value.getD []), none)
  else
    if value.isNone && !delete then
      (fs.1, ps, dget fs.2 key)
    else if delete then
      (some (if dmem fs.2 key then ddel fs.2 key else fs.2), ps, none)
    else
      (some (dset fs.2 key
          (if key = "redirected_urls".data || key = "redirected_regex".data
            then SVal.yamlVal (value.getD []) else SVal.str (value.getD []))),
        ps, none)

/-! ### Dict and permission lemmas -/

theorem dget_dset_self : ∀ (d : Dict) (k : List Char) (v : SVal),
    dget (dset d k v) k = some v := by
  intro d
  induction d with
  | nil => intro k v; simp [dset, dget]
  | cons kv rest ih =>
    intro k v
    obtain ⟨k', v'⟩ := kv
    by_cases h : k' = k
    · simp [dset, dget, h]
    · simp only [dset, if_neg h, dget]
      exact ih k v

theorem dget_dset_ne : ∀ (d : Dict) (k k' : List Char) (v : SVal), k' ≠ k →
    dget (dset d k v) k' = dget d k' := by
  intro d
  induction d with
  | nil => intro k k' v h; simp [dset, dget, Ne.symm h]
  | cons kv rest ih =>
    intro k k' v h
    obtain ⟨k0, v0⟩ := kv
    by_cases h0 : k0 = k
    · subst h0
      simp [dset, dget, Ne.symm h]
    · by_cases h1 : k0 = k'
      · simp [dset, dget, h0, h1, h]
      · simpa [dset, dget, h0, h1, h] using ih k k' v h

theorem dget_ddel_self : ∀ (d : Dict) (k : List Char), dget (ddel d k) k = none := by
  intro d
  induction d with
  | nil => intro k; rfl
  | cons kv rest ih =>
    intro k
    obtain ⟨k0, v0⟩ := kv
    by_cases h0 : k0 = k <;> simpa [ddel, dget, h0] using ih k

theorem dget_ddel_ne : ∀ (d : Dict) (k k' : List Char), k' ≠ k →
    dget (ddel d k) k' = dget d k' := by
  intro d
  induction d with
  | nil => intro k k' _; rfl
  | cons kv rest ih =>
    intro k k' h
    obtain ⟨k0, v0⟩ := kv
    by_cases h0 : k0 = k
    · have h1 : ¬k0 = k' := fun hh => h (by rw [← hh, h0])
      simpa [ddel, dget, h0, h1, Ne.symm h] using ih k k' h
    · by_cases h1 : k0 = k'
      · simp [ddel, dget, h0, h1, h]
      · simpa [ddel, dget, h0, h1, h] using ih k k' h

theorem pget_pdel_self : ∀ (ps : Perms) (k : List Char), pget (pdel ps k) k = none := by
  intro ps
  induction ps with
  | nil => intro k; rfl
  | cons kv rest ih =>
    intro k
    obtain ⟨k0, v0⟩ := kv
    by_cases h0 : k0 = k <;> simpa [pdel, pget, h0] using ih k

theorem pget_psetInfo_ne : ∀ (ps : Perms) (k k' : List Char) (v : PermInfo), k' ≠ k →
    pget (psetInfo ps k v) k' = pget ps k' := by
  intro ps
  induction ps with
  | nil => intro k k' v h; simp [psetInfo, pget, Ne.symm h]
  | cons kv rest ih =>
    intro k k' v h
    obtain ⟨k0, v0⟩ := kv
    by_cases h0 : k0 = k
    · subst h0
      simp [psetInfo, pget, Ne.symm h]
    · by_cases h1 : k0 = k'
      · simp [psetInfo, pget, h0, h1, h]
      · simpa [psetInfo, pget, h0, h1, h] using ih k k' v h

theorem pget_removeVisitors_ne (ps : Perms) (name k : List Char) (h : k ≠ name) :
    pget (userPermissionRemoveVisitors ps name) k = pget ps k := by
  unfold userPermissionRemoveVisitors
  cases pget ps name with
  | none => rfl
  | some p => exact pget_psetInfo_ne ps name k _ h

/-- The legacy permission name never collides with the `.main`
permission name of the same app. -/
theorem legacyPermName_ne_main (app key : List Char) :
    legacyPermName app key ≠ app ++ ".main".data := by
  unfold legacyPermName
  intro h
  rw [List.append_assoc, List.append_assoc] at h
  have h2 := List.append_cancel_left h
  rw [List.cons_append, List.cons_append] at h2
  have h3 := List.tail_eq_of_cons_eq h2
  cases h3

/-! ### Path-fix lemmas -/

theorem dropWhile_head_ne_slash :
    ∀ (l : List Char) (c : Char),
      (l.dropWhile (fun x => decide (x = '/'))).head? = some c → ¬c = '/' := by
  intro l
  induction l with
  | nil => intro c h; cases h
  | cons x xs ih =>
    intro c h
    by_cases hx : x = '/'
    · rw [List.dropWhile_cons, if_pos (by simp [hx])] at h
      exact ih c h
    · rw [List.dropWhile_cons, if_neg (by simp [hx])] at h
      rw [List.head?_cons] at h
      intro hc
      exact hx ((Option.some.inj h) ▸ hc)

theorem stripSlashes_getLast_ne (s : List Char) (c : Char)
    (h : (stripSlashes s).getLast? = some c) : ¬c = '/' := by
  unfold stripSlashes at h
  rw [List.getLast?_reverse] at h
  exact dropWhile_head_ne_slash _ c h

theorem pathFixed_needsFix_false (s : List Char) :
    pathNeedsFix (some (.str ('/' :: stripSlashes s))) = false := by
  cases hl : stripSlashes s with
  | nil => simp [pathNeedsFix]
  | cons g gs =>
    have hend : endsWithSlash ('/' :: g :: gs) = false := by
      unfold endsWithSlash
      rw [List.getLast?_cons_cons]
      cases hc : (g :: gs).getLast? with
      | none => rfl
      | some c =>
        have hcne := stripSlashes_getLast_ne s c (by rw [hl]; exact hc)
        simp [hcne]
    simp [pathNeedsFix, hend, startsWithSlash]

theorem applyPathFix_path_ok (d : Dict) :
    pathNeedsFix (dget (applyPathFix d) "path".data) = false := by
  unfold applyPathFix
  cases hp : dget d "path".data with
  | none =>
    show pathNeedsFix (dget d "path".data) = false
    rw [hp]
    rfl
  | some v =>
    cases v with
    | yamlVal r =>
      show pathNeedsFix (dget d "path".data) = false
      rw [hp]
      rfl
    | str sp =>
      show pathNeedsFix (dget
        (if pathNeedsFix (some (.str sp)) then
          dset d "path".data (.str ('/' :: stripSlashes sp))
        else d) "path".data) = false
      by_cases hfix : pathNeedsFix (some (.str sp)) = true
      · rw [if_pos hfix, dget_dset_self]
        exact pathFixed_needsFix_false sp
      · rw [if_neg hfix, hp]
        exact Bool.of_not_eq_true hfix

theorem applyPathFix_of_ok (d : Dict)
    (h : pathNeedsFix (dget d "path".data) = false) : applyPathFix d = d := by
  unfold applyPathFix
  cases hp : dget d "path".data with
  | none => rfl
  | some v =>
    cases v with
    | yamlVal r => rfl
    | str sp =>
      show (if pathNeedsFix (some (.str sp)) then
          dset d "path".data (.str ('/' :: stripSlashes sp))
        else d) = d
      rw [hp] at h
      rw [if_neg (by rw [h]; exact Bool.false_ne_true)]

theorem getAppSettingsD_path_ok (app : List Char) (d : Dict) :
    pathNeedsFix (dget (getAppSettingsD app d) "path".data) = false := by
  unfold getAppSettingsD
  cases hid : dget (applyPathFix d) "id".data with
  | none => rfl
  | some v =>
    show pathNeedsFix (dget (if v = SVal.str app then applyPathFix d else [])
      "path".data) = false
    by_cases hv : v = SVal.str app
    · rw [if_pos hv]
      exact applyPathFix_path_ok d
    · rw [if_neg hv]
      rfl

theorem getAppSettings_path_ok (app : List Char) (file : Option Dict) :
    pathNeedsFix (dget (getAppSettings app file).2 "path".data) = false := by
  cases file with
  | none => rfl
  | some d => exact getAppSettingsD_path_ok app d

theorem getAppSettingsD_of_good (app : List Char) (d : Dict)
    (hfixok : pathNeedsFix (dget d "path".data) = false)
    (hid : dget d "id".data = some (SVal.str app)) :
    getAppSettingsD app d = d := by
  unfold getAppSettingsD
  rw [applyPathFix_of_ok d hfixok, hid]
  show (if SVal.str app = SVal.str app then d else []) = d
  rw [if_pos rfl]

theorem getAppSettings_of_good (app : List Char) (d : Dict)
    (hfixok : pathNeedsFix (dget d "path".data) = false)
    (hid : dget d "id".data = some (SVal.str app)) :
    getAppSettings app (some d) = (some d, d) := by
  show (some (applyPathFix d), getAppSettingsD app d) = (some d, d)
  rw [applyPathFix_of_ok d hfixok, getAppSettingsD_of_good app d hfixok hid]

theorem getAppSettingsD_nonempty (app : List Char) (d : Dict)
    (h : getAppSettingsD app d ≠ []) :
    getAppSettingsD app d = applyPathFix d ∧
      dget (applyPathFix d) "id".data = some (SVal.str app) := by
  unfold getAppSettingsD at h ⊢
  cases hid : dget (applyPathFix d) "id".data with
  | none => rw [hid] at h; exact absurd rfl h
  | some v =>
    rw [hid] at h
    by_cases hv : v = SVal.str app
    · constructor
      · show (if v = SVal.str app then applyPathFix d else []) = applyPathFix d
        rw [if_pos hv]
      · show some v = some (SVal.str app)
        rw [hv]
    · exfalso
      apply h
      show (if v = SVal.str app then applyPathFix d else []) = []
      rw [if_neg hv]

theorem getAppSettings_nonempty (app : List Char) (file : Option Dict)
    (h : (getAppSettings app file).2 ≠ []) :
    ∃ d, file = some d ∧ (getAppSettings app file).2 = applyPathFix d ∧
      dget (applyPathFix d) "id".data = some (SVal.str app) := by
  cases file with
  | none => exact absurd rfl h
  | some d =>
    obtain ⟨h1, h2⟩ := getAppSettingsD_nonempty app d h
    exact ⟨d, rfl, h1, h2⟩

theorem getAppSettings_file_eq (app : List Char) (file : Option Dict)
    (h : settingsReadFix file = false) : (getAppSettings app file).1 = file := by
  cases file with
  | none => rfl
  | some d =>
    show some (applyPathFix d) = some d
    rw [applyPathFix_of_ok d h]

theorem dget_getAppSettingsD_none (app : List Char) (d : Dict) (k : List Char)
    (hfixok : pathNeedsFix (dget d "path".data) = false)
    (hk : dget d k = none) :
    dget (getAppSettingsD app d) k = none := by
  unfold getAppSettingsD
  rw [applyPathFix_of_ok d hfixok]
  cases hid : dget d "id".data with
  | none => rfl
  | some v =>
    show dget (if v = SVal.str app then d else []) k = none
    by_cases hv : v = SVal.str app
    · rw [if_pos hv]
      exact hk
    · rw [if_neg hv]
      rfl

/-! ### Branch shapes of `app_setting` -/

theorem appSetting_get_regular (file : Option Dict) (ps : Perms) (app key : List Char)
    (hleg : isLegacyPermissionSetting key = false) :
    appSetting file ps app key none false
      = ((getAppSettings app file).1, ps, dget (getAppSettings app file).2 key) := by
  unfold appSetting
  simp [hleg]

theorem appSetting_set_regular (file : Option Dict) (ps : Perms) (app key v : List Char)
    (hleg : isLegacyPermissionSetting key = false)
    (hk1 : key ≠ "redirected_urls".data) (hk2 : key ≠ "redirected_regex".data) :
    appSetting file ps app key (some v) false
      = (some (dset (getAppSettings app file).2 key (SVal.str v)), ps, none) := by
  unfold appSetting
  simp [hleg, hk1, hk2]

theorem appSetting_delete_regular (file : Option Dict) (ps : Perms)
    (app key : List Char) (value : Option (List Char))
    (hleg : isLegacyPermissionSetting key = false) :
    appSetting file ps app key value true
      = (some (if dmem (getAppSettings app file).2 key
            then ddel (getAppSettings app file).2 key
            else (getAppSettings app file).2), ps, none) := by
  unfold appSetting
  simp [hleg]

theorem appSetting_get_legacy (file : Option Dict) (ps : Perms) (app key : List Char)
    (hleg : isLegacyPermissionSetting key = true) :
    appSetting file ps app key none false
      = ((getAppSettings app file).1, ps,
          (pget ps (legacyPermName app key)).map
            (fun p => .str (joinComma p.additional_urls))) := by
  unfold appSetting
  simp [hleg]

theorem appSetting_delete_legacy (file : Option Dict) (ps : Perms)
    (app key : List Char) (value : Option (List Char))
    (hleg : isLegacyPermissionSetting key = true) :
    appSetting file ps app key value true
      = ((getAppSettings app file).1,
          legacyDelete ps app key (getAppSettings app file).2, none) := by
  unfold appSetting
  simp [hleg]

theorem appSetting_set_legacy (file : Option Dict) (ps : Perms) (app key v : List Char)
    (hleg : isLegacyPermissionSetting key = true) :
    appSetting file ps app key (some v) false
      = ((getAppSettings app file).1, legacySet ps app key v, none) := by
  unfold appSetting
  simp [hleg]

theorem pget_legacyDelete_self (ps : Perms) (app key : List Char) (s : Dict) :
    pget (legacyDelete ps app key s) (legacyPermName app key) = none := by
  have hne := legacyPermName_ne_main app key
  simp only [legacyDelete]
  by_cases hsome : (pget ps (legacyPermName app key)).isSome = true
  · simp only [hsome, if_true]
    exact pget_pdel_self _ _
  · have hs2 : (pget ps (legacyPermName app key)).isSome = false := by simpa using hsome
    have hnone : pget ps (legacyPermName app key) = none :=
      Option.not_isSome_iff_eq_none.mp (by rw [hs2]; exact Bool.false_ne_true)
    simp only [hs2, Bool.false_eq_true, if_false]
    split
    · exact (pget_removeVisitors_ne ps _ _ hne).trans hnone
    · exact hnone

/-! ## Claim theorems: C9 and C10 -/

/-- C9 counterexample: for the legacy-permission key `unprotected_uris`,
set-then-get does not return the value that was set: setting `/` is
translated into permission-directory updates on the app's `.main`
permission (app.py:1259-1262), and the subsequent get looks up the
`app.legacy_unprotected_uris` permission, which does not exist, so it
returns None rather than `/`. -/
theorem C9_counterexample :
    (appSetting
        (appSetting (some [("id".data, SVal.str "app".data)])
          [("app.main".data, ⟨some "/".data, [], ["all_users".data]⟩)]
          "app".data "unprotected_uris".data (some "/".data) false).1
        (appSetting (some [("id".data, SVal.str "app".data)])
          [("app.main".data, ⟨some "/".data, [], ["all_users".data]⟩)]
          "app".data "unprotected_uris".data (some "/".data) false).2.1
        "app".data "unprotected_uris".data none false).2.2 = none ∧
      none ≠ some (SVal.str "/".data) := by decide

/-- C9 (amended): get-after-set returns exactly the value that was set
for every key that is not legacy-permission-prefixed
(`unprotected_/protected_/skipped_`, routed to the permission
directory), not `redirected_urls`/`redirected_regex` (whose value is
YAML-parsed before storing), and not `path`/`id` (rewritten or checked
by the read-side normalization of `_get_app_settings`), provided the
app's stored record is readable (non-empty, correct id); and
delete-then-get returns absent (None) for EVERY key. -/
theorem C9_set_get_delete_get (file : Option Dict) (ps : Perms)
    (app key v : List Char)
    (file2 : Option Dict) (ps2 : Perms) (key2 : List Char)
    (hleg : isLegacyPermissionSetting key = false)
    (hk1 : key ≠ "redirected_urls".data) (hk2 : key ≠ "redirected_regex".data)
    (hk3 : key ≠ "path".data) (hk4 : key ≠ "id".data)
    (hinst : (getAppSettings app file).2 ≠ []) :
    (appSetting (appSetting file ps app key (some v) false).1
        (appSetting file ps app key (some v) false).2.1 app key none false).2.2
      = some (SVal.str v) ∧
    (appSetting (appSetting file2 ps2 app key2 none true).1
        (appSetting file2 ps2 app key2 none true).2.1 app key2 none false).2.2
      = none := by
  constructor
  · obtain ⟨d, hfile, hset2, hid⟩ := getAppSettings_nonempty app file hinst
    rw [appSetting_set_regular file ps app key v hleg hk1 hk2]
    rw [appSetting_get_regular _ ps app key hleg]
    have hpath0 : pathNeedsFix (dget (getAppSettings app file).2 "path".data) = false :=
      getAppSettings_path_ok app file
    have hid0 : dget (getAppSettings app file).2 "id".data = some (SVal.str app) := by
      rw [hset2]; exact hid
    have hgood := getAppSettings_of_good app
        (dset (getAppSettings app file).2 key (SVal.str v))
        (by rw [dget_dset_ne _ _ _ _ (Ne.symm hk3)]; exact hpath0)
        (by rw [dget_dset_ne _ _ _ _ (Ne.symm hk4)]; exact hid0)
    rw [hgood]
    exact dget_dset_self (getAppSettings app file).2 key (SVal.str v)
  · by_cases hkl : isLegacyPermissionSetting key2 = true
    · rw [appSetting_delete_legacy file2 ps2 app key2 none hkl]
      rw [appSetting_get_legacy _ _ app key2 hkl]
      rw [pget_legacyDelete_self]
      rfl
    · have hkl' : isLegacyPermissionSetting key2 = false := by simpa using hkl
      rw [appSetting_delete_regular file2 ps2 app key2 none hkl']
      rw [appSetting_get_regular _ ps2 app key2 hkl']
      have hpath0 : pathNeedsFix (dget (getAppSettings app file2).2 "path".data)
          = false := getAppSettings_path_ok app file2
      have hdel : dget (if dmem (getAppSettings app file2).2 key2
          then ddel (getAppSettings app file2).2 key2
          else (getAppSettings app file2).2) key2 = none := by
        by_cases hm : dmem (getAppSettings app file2).2 key2 = true
        · rw [if_pos hm]
          exact dget_ddel_self _ key2
        · rw [if_neg hm]
          exact Option.not_isSome_iff_eq_none.mp
            (by simpa [dmem] using hm)
      have hpath1 : pathNeedsFix (dget (if dmem (getAppSettings app file2).2 key2
          then ddel (getAppSettings app file2).2 key2
          else (getAppSettings app file2).2) "path".data) = false := by
        by_cases hkp : key2 = "path".data
        · rw [← hkp, hdel]
          rfl
        · have heq : dget (if dmem (getAppSettings app file2).2 key2
              then ddel (getAppSettings app file2).2 key2
              else (getAppSettings app file2).2) "path".data
                = dget (getAppSettings app file2).2 "path".data := by
            by_cases hm : dmem (getAppSettings app file2).2 key2 = true
            · rw [if_pos hm]
              exact dget_ddel_ne _ key2 "path".data (fun hh => hkp hh.symm)
            · rw [if_neg hm]
          rw [heq]
          exact hpath0
      exact dget_getAppSettingsD_none app _ key2 hpath1 hdel

theorem C9_set_get_delete_get_witness :
    (appSetting
        (appSetting (some [("id".data, SVal.str "a".data)]) []
          "a".data "k".data (some "w".data) false).1
        (appSetting (some [("id".data, SVal.str "a".data)]) []
          "a".data "k".data (some "w".data) false).2.1
        "a".data "k".data none false).2.2 = some (SVal.str "w".data) ∧
      (appSetting (appSetting none [] "a".data "k2".data none true).1
          (appSetting none [] "a".data "k2".data none true).2.1
          "a".data "k2".data none false).2.2 = none :=
  C9_set_get_delete_get (some [("id".data, SVal.str "a".data)]) []
    "a".data "k".data "w".data none [] "k2".data
    (by decide) (by decide) (by decide) (by decide) (by decide) (by decide)

/-- C10 counterexample: an operation on a legacy-permission key can
modify the stored settings record after all, through the legacy path
normalization inside `_get_app_settings` (app.py:1786-1791): reading the
settings of an app whose stored `path` is `/foo/` rewrites the file with
`path: /foo` before the legacy branch runs. -/
theorem C10_counterexample :
    (appSetting
        (some [("id".data, SVal.str "app".data), ("path".data, SVal.str "/foo/".data)])
        [] "app".data "unprotected_uris".data none false).1
      = some [("id".data, SVal.str "app".data), ("path".data, SVal.str "/foo".data)] ∧
      some [("id".data, SVal.str "app".data), ("path".data, SVal.str "/foo".data)]
        ≠ some [("id".data, SVal.str "app".data),
            ("path".data, SVal.str "/foo/".data)] := by decide

/-- C10 (amended): for every key with prefix `unprotected_`,
`protected_` or `skipped_`, get/set/delete is routed entirely to the
permission directory and returns before the settings-write step: after
the call the stored settings file equals whatever `_get_app_settings`
left on the read (the legacy path normalization may rewrite a malformed
`path` on read); when the stored path needs no such fix, the file is
exactly unchanged. -/
theorem C10_legacy_frame (file : Option Dict) (ps : Perms) (app key : List Char)
    (value : Option (List Char)) (delete : Bool)
    (hkey : isLegacyPermissionSetting key = true) :
    (appSetting file ps app key value delete).1 = (getAppSettings app file).1 ∧
      (settingsReadFix file = false →
        (appSetting file ps app key value delete).1 = file) := by
  have h1 : (appSetting file ps app key value delete).1
      = (getAppSettings app file).1 := by
    cases value with
    | none =>
      cases delete with
      | false => rw [appSetting_get_legacy file ps app key hkey]
      | true => rw [appSetting_delete_legacy file ps app key none hkey]
    | some v =>
      cases delete with
      | false => rw [appSetting_set_legacy file ps app key v hkey]
      | true => rw [appSetting_delete_legacy file ps app key (some v) hkey]
  exact ⟨h1, fun hf => h1.trans (getAppSettings_file_eq app file hf)⟩

theorem C10_legacy_frame_witness :
    ((appSetting (some [("id".data, SVal.str "a".data)]) []
        "a".data "protected_uris".data none false).1
      = (getAppSettings "a".data (some [("id".data, SVal.str "a".data)])).1) ∧
      (settingsReadFix (some [("id".data, SVal.str "a".data)]) = false →
        (appSetting (some [("id".data, SVal.str "a".data)]) []
          "a".data "protected_uris".data none false).1
          = some [("id".data, SVal.str "a".data)]) :=
  C10_legacy_frame (some [("id".data, SVal.str "a".data)]) []
    "a".data "protected_uris".data none false (by decide)

/-! ## Manifest Resolver: `_set_default_ask_questions` (app.py:1948-2005) -/

/-- The fixed `(type, name)` table of well-known install questions
(app.py:1969-1975). -/
def matchesDefaultQuestion (arg : Dict) : Bool :=
  [("domain", "domain"), ("path", "path"), ("password", "password"),
    ("user", "admin"), ("boolean", "is_public")].any
    (fun q => decide (dget arg "type".data = some (SVal.str q.1.data)) &&
      decide (dget arg "name".data = some (SVal.str q.2.data)))

/-- `arg.get("type") in ["domain", "user", "password"]` (app.py:1999). -/
def typeIsStrippable : Option SVal → Bool
  | some (SVal.str t) =>
    decide (t = "domain".data) || decide (t = "user".data)
      || decide (t = "password".data)
  | _ => false

/-- One question descriptor through the loop body of
`_set_default_ask_questions` (app.py:1983-2003).  `m18n.n(key)` is
modelled as returning its key.  The stripping block executes
`del arg["example"]` when present, and then — as literally written at
app.py:2002-2003 — `if "default" in arg: del arg["domain"]`, which
raises `KeyError` (modelled `Except.error`) whenever `default` is
present but `domain` is not. -/
def processInstallArg (arg : Dict) : Except Unit Dict :=
  let arg1 := if matchesDefaultQuestion arg then
      match dget arg "name".data with
      | some (SVal.str nm) =>
        dset arg "ask".data (SVal.str ("app_manifest_install_ask_".data ++ nm))
      | _ => arg
    else arg
  if typeIsStrippable (dget arg1 "type".data) then
    let arg2 := if dmem arg1 "example".data then ddel arg1 "example".data else arg1
    if dmem arg2 "default".data then
      if dmem arg2 "domain".data then Except.ok (ddel arg2 "domain".data)
      else Except.error ()
    else Except.ok arg2
  else Except.ok arg1

def processArgList : List Dict → Except Unit (List Dict)
  | [] => .ok []
  | a :: rest =>
    match processInstallArg a, processArgList rest with
    | .ok b, .ok bs => .ok (b :: bs)
    | .error e, _ => .error e
    | .ok _, .error e => .error e

/-- `_set_default_ask_questions` (app.py:1948-2005): the loop over
`arguments.items()` processes only the `install` script's question list
(app.py:1980-1981), leaving every other script's untouched. -/
def setDefaultAskQuestions :
    List (List Char × List Dict) → Except Unit (List (List Char × List Dict))
  | [] => .ok []
  | (sc, l) :: rest =>
    match (if sc = "install".data then processArgList l else .ok l),
        setDefaultAskQuestions rest with
    | .ok l2, .ok rest2 => .ok ((sc, l2) :: rest2)
    | .error e, _ => .error e
    | .ok _, .error e => .error e

/-- C6: the claim says any `default` value is stripped from questions of
type `domain`/`user`/`password`.  The code instead runs
`if "default" in arg: del arg["domain"]` (app.py:2002-2003): on an
install question of type `user` with a `default` and no `domain` key it
raises `KeyError`; with a `domain` key present, it deletes `domain` and
LEAVES `default` in place.  Questions of non-install scripts are indeed
untouched. -/
theorem C6_default_strip_is_buggy :
    setDefaultAskQuestions [("install".data,
        [[("name".data, SVal.str "admin".data), ("type".data, SVal.str "user".data),
          ("default".data, SVal.str "johndoe".data)]])]
      = .error () ∧
    setDefaultAskQuestions [("install".data,
        [[("name".data, SVal.str "d".data), ("type".data, SVal.str "domain".data),
          ("default".data, SVal.str "example.com".data),
          ("domain".data, SVal.str "x".data)]])]
      = .ok [("install".data,
          [[("name".data, SVal.str "d".data), ("type".data, SVal.str "domain".data),
            ("default".data, SVal.str "example.com".data)]])] ∧
    setDefaultAskQuestions [("upgrade".data,
        [[("name".data, SVal.str "admin".data), ("type".data, SVal.str "user".data),
          ("default".data, SVal.str "johndoe".data)]])]
      = .ok [("upgrade".data,
          [[("name".data, SVal.str "admin".data), ("type".data, SVal.str "user".data),
            ("default".data, SVal.str "johndoe".data)]])] := ⟨rfl, rfl, rfl⟩

end YnhApp
